import Mathlib

/-!
Shallow embedding of the Ghosted backend core (Unicode scanner / cleaner,
detector summary, before/after comparison) together with proofs of the
specified properties.

Conventions used throughout:
* Python strings are code-point sequences; we work on `String` through its
  underlying `List Char` (`String.data`), matching Python's per-code-point
  iteration and `len`.
* Python dicts (which preserve insertion order) are modelled as association
  lists; `abump` models `d[k] = f(d.get(k, init))`-style updates, which modify
  an existing key in place or append a new key at the end.
* The code labels code points with the string `U+XXXX` (via `ord`); since that
  formatting is injective we keep the `Char` itself as the label.
* Python floats are modelled as exact rationals; `round(x, 4)` is modelled as
  exact round-half-to-even at 4 decimal places (`round4`).
* The prose insight sentences produced by `build_insight` are modelled as a
  tagged value (`InsightMsg`) carrying exactly the data the code interpolates
  into the English template; the reliability assessment strings are kept
  verbatim.
-/

namespace Ghosted

/-- Categories appearing in the invisible-character table
(`unicode_scanner.INVISIBLE_CHARS`).  The code uses the strings
"zero-width", "bidi", "whitespace", "deprecated", "invisible-math",
"annotation", "formatting". -/
inductive Category where
  | zeroWidth
  | bidi
  | whitespace
  | deprecatedCat
  | invisibleMath
  | annotationCat
  | formatting
deriving DecidableEq

/-- Threat levels assigned in the table ("high" / "medium" / "low"). -/
inductive ThreatLevel where
  | high
  | medium
  | low
deriving DecidableEq

/-- `INVISIBLE_CHARS`: char -> (name, category, default_threat_level),
transcribed entry by entry from `unicode_scanner.py`. -/
def INVISIBLE_CHARS : List (Char × String × Category × ThreatLevel) :=
  [ ('\u200B', "ZERO WIDTH SPACE", Category.zeroWidth, ThreatLevel.high),
    ('\u200C', "ZERO WIDTH NON-JOINER", Category.zeroWidth, ThreatLevel.high),
    ('\u200D', "ZERO WIDTH JOINER", Category.zeroWidth, ThreatLevel.high),
    ('\u2060', "WORD JOINER", Category.zeroWidth, ThreatLevel.high),
    ('\uFEFF', "ZERO WIDTH NO-BREAK SPACE / BOM", Category.zeroWidth, ThreatLevel.high),
    ('\u200E', "LEFT-TO-RIGHT MARK", Category.bidi, ThreatLevel.medium),
    ('\u200F', "RIGHT-TO-LEFT MARK", Category.bidi, ThreatLevel.medium),
    ('\u202A', "LEFT-TO-RIGHT EMBEDDING", Category.bidi, ThreatLevel.medium),
    ('\u202B', "RIGHT-TO-LEFT EMBEDDING", Category.bidi, ThreatLevel.medium),
    ('\u202C', "POP DIRECTIONAL FORMATTING", Category.bidi, ThreatLevel.medium),
    ('\u202D', "LEFT-TO-RIGHT OVERRIDE", Category.bidi, ThreatLevel.medium),
    ('\u202E', "RIGHT-TO-LEFT OVERRIDE", Category.bidi, ThreatLevel.medium),
    ('\u2066', "LEFT-TO-RIGHT ISOLATE", Category.bidi, ThreatLevel.medium),
    ('\u2067', "RIGHT-TO-LEFT ISOLATE", Category.bidi, ThreatLevel.medium),
    ('\u2068', "FIRST STRONG ISOLATE", Category.bidi, ThreatLevel.medium),
    ('\u2069', "POP DIRECTIONAL ISOLATE", Category.bidi, ThreatLevel.medium),
    ('\u061C', "ARABIC LETTER MARK", Category.bidi, ThreatLevel.medium),
    ('\u00AD', "SOFT HYPHEN", Category.whitespace, ThreatLevel.low),
    ('\u180E', "MONGOLIAN VOWEL SEPARATOR", Category.whitespace, ThreatLevel.medium),
    ('\u2000', "EN QUAD", Category.whitespace, ThreatLevel.low),
    ('\u2001', "EM QUAD", Category.whitespace, ThreatLevel.low),
    ('\u2002', "EN SPACE", Category.whitespace, ThreatLevel.low),
    ('\u2003', "EM SPACE", Category.whitespace, ThreatLevel.low),
    ('\u2004', "THREE-PER-EM SPACE", Category.whitespace, ThreatLevel.low),
    ('\u2005', "FOUR-PER-EM SPACE", Category.whitespace, ThreatLevel.low),
    ('\u2006', "SIX-PER-EM SPACE", Category.whitespace, ThreatLevel.low),
    ('\u2007', "FIGURE SPACE", Category.whitespace, ThreatLevel.low),
    ('\u2008', "PUNCTUATION SPACE", Category.whitespace, ThreatLevel.low),
    ('\u2009', "THIN SPACE", Category.whitespace, ThreatLevel.low),
    ('\u200A', "HAIR SPACE", Category.whitespace, ThreatLevel.low),
    ('\u202F', "NARROW NO-BREAK SPACE", Category.whitespace, ThreatLevel.low),
    ('\u206A', "INHIBIT SYMMETRIC SWAPPING", Category.deprecatedCat, ThreatLevel.low),
    ('\u206B', "ACTIVATE SYMMETRIC SWAPPING", Category.deprecatedCat, ThreatLevel.low),
    ('\u206C', "INHIBIT ARABIC FORM SHAPING", Category.deprecatedCat, ThreatLevel.low),
    ('\u206D', "ACTIVATE ARABIC FORM SHAPING", Category.deprecatedCat, ThreatLevel.low),
    ('\u206E', "NATIONAL DIGIT SHAPES", Category.deprecatedCat, ThreatLevel.low),
    ('\u206F', "NOMINAL DIGIT SHAPES", Category.deprecatedCat, ThreatLevel.low),
    ('\u2061', "FUNCTION APPLICATION", Category.invisibleMath, ThreatLevel.low),
    ('\u2062', "INVISIBLE TIMES", Category.invisibleMath, ThreatLevel.low),
    ('\u2063', "INVISIBLE SEPARATOR", Category.invisibleMath, ThreatLevel.low),
    ('\u2064', "INVISIBLE PLUS", Category.invisibleMath, ThreatLevel.low),
    ('\uFFF9', "INTERLINEAR ANNOTATION ANCHOR", Category.annotationCat, ThreatLevel.low),
    ('\uFFFA', "INTERLINEAR ANNOTATION SEPARATOR", Category.annotationCat, ThreatLevel.low),
    ('\uFFFB', "INTERLINEAR ANNOTATION TERMINATOR", Category.annotationCat, ThreatLevel.low),
    ('\u115F', "HANGUL CHOSEONG FILLER", Category.formatting, ThreatLevel.low),
    ('\u1160', "HANGUL JUNGSEONG FILLER", Category.formatting, ThreatLevel.low),
    ('\u17B4', "KHMER VOWEL INHERENT AQ", Category.formatting, ThreatLevel.low),
    ('\u17B5', "KHMER VOWEL INHERENT AA", Category.formatting, ThreatLevel.low),
    ('\u034F', "COMBINING GRAPHEME JOINER", Category.formatting, ThreatLevel.low) ]

/-- `SMART_CHARS`: char -> (ascii_replacement, name). -/
def SMART_CHARS : List (Char × String × String) :=
  [ ('\u2018', "\x27", "LEFT SINGLE QUOTATION MARK"),
    ('\u2019', "\x27", "RIGHT SINGLE QUOTATION MARK"),
    ('\u201C', "\"", "LEFT DOUBLE QUOTATION MARK"),
    ('\u201D', "\"", "RIGHT DOUBLE QUOTATION MARK"),
    ('\u2013', "-", "EN DASH"),
    ('\u2014', "--", "EM DASH"),
    ('\u2026', "...", "HORIZONTAL ELLIPSIS") ]

/-- Table lookup for invisible characters (`INVISIBLE_CHARS[ch]`). -/
def invisibleEntry? (c : Char) : Option (String × Category × ThreatLevel) :=
  (INVISIBLE_CHARS.find? (fun e => e.1 == c)).map (·.2)

/-- `ch in _INVISIBLE_SET`. -/
def isInvisible (c : Char) : Bool :=
  (invisibleEntry? c).isSome

/-- Table lookup for smart characters (`SMART_CHARS[ch]`). -/
def smartEntry? (c : Char) : Option (String × String) :=
  (SMART_CHARS.find? (fun e => e.1 == c)).map (·.2)

/-- `ch in SMART_CHARS`. -/
def isSmart (c : Char) : Bool :=
  (smartEntry? c).isSome

/-- Category assigned to a code point by the invisible table, if any. -/
def charCategory (c : Char) : Option Category :=
  (invisibleEntry? c).map (fun e => e.2.1)

/-- `true` iff the invisible table puts `c` in category `k`. -/
def isCat (k : Category) (c : Char) : Bool :=
  charCategory c == some k

/-- Insertion-order-preserving dict update, as Python dicts behave:
`abump d a f init` modifies the entry for `a` in place via `f` when present and
appends `(a, init)` at the end otherwise.  `d.setdefault(ch, []).append(i)` is
`abump d ch (fun ps => ps ++ [i]) [i]`; `d[k] = d.get(k, 0) + n` is
`abump d k (fun m => m + n) n`. -/
def abump [DecidableEq α] (d : List (α × β)) (a : α) (f : β → β) (init : β) :
    List (α × β) :=
  match d with
  | [] => [(a, init)]
  | e :: d => if e.1 = a then (e.1, f e.2) :: d else e :: abump d a f init

/-- Dict lookup on the association-list model. -/
def alookup [DecidableEq α] (d : List (α × β)) (a : α) : Option β :=
  match d with
  | [] => none
  | e :: d => if e.1 = a then some e.2 else alookup d a

/-- The keys of an association list, in insertion order. -/
def akeys (d : List (α × β)) : List α :=
  d.map (·.1)

/-- One scan finding per distinct invisible code point (`CharFinding`).
`char` holds the code point labelled `U+XXXX` in the code. -/
structure CharFinding where
  char : Char
  name : String
  category : Category
  threat_level : ThreatLevel
  count : Nat
  positions : List Nat
deriving DecidableEq

/-- Smart-character finding (`SmartCharFinding`). -/
structure SmartCharFinding where
  char : Char
  name : String
  count : Nat
  replacement : String
deriving DecidableEq

/-- Where the invisible characters likely came from (`likely_source`);
the code uses the strings "none", "tokenizer_artifact", "copy_paste",
"formatting". -/
inductive Source where
  | noneSource
  | tokenizerArtifact
  | copyPaste
  | formattingSource
deriving DecidableEq

/-- `context` field of a scan result. -/
structure ScanContext where
  explanation : String
  likely_source : Source
deriving DecidableEq

/-- `ScanResult`. -/
structure ScanResult where
  has_invisible_chars : Bool
  total_invisible_count : Nat
  char_count : Nat
  categories : List (Category × Nat)
  findings : List CharFinding
  smart_chars : Option (List SmartCharFinding)
  context : ScanContext
deriving DecidableEq

/-- `CleanResult`.  Each `removals` entry is (code point, name, count). -/
structure CleanResult where
  cleaned_text : String
  original_length : Nat
  cleaned_length : Nat
  chars_removed : Nat
  removals : List (Char × String × Nat)
deriving DecidableEq

/-- The `char_data` accumulator of `scan`: code point -> positions. -/
abbrev PosMap := List (Char × List Nat)

/-- `char_data.setdefault(ch, []).append(i)`. -/
def addPos (d : PosMap) (c : Char) (i : Nat) : PosMap :=
  abump d c (fun ps => ps ++ [i]) [i]

/-- The position-collecting loop of `scan`
(`for i, ch in enumerate(text): if ch in _INVISIBLE_SET: ...`),
with `i` the index of the first character of the remaining suffix. -/
def scanLoop : List Char → Nat → PosMap → PosMap
  | [], _, d => d
  | c :: cs, i, d => scanLoop cs (i + 1) (if isInvisible c then addPos d c i else d)

/-- `char_data` for a whole text. -/
def charData (cs : List Char) : PosMap :=
  scanLoop cs 0 []

/-- `threat_order = {"high": 0, "medium": 1, "low": 2}`; `threat_order.get`
with default 3 — the table only ever assigns the three listed levels, so the
default branch for unknown levels is unreachable here. -/
def threatRank : ThreatLevel → Nat
  | .high => 0
  | .medium => 1
  | .low => 2

/-- The sort key `(threat_order.get(f.threat_level, 3), -f.count)` compared
lexicographically: earlier-or-equal means lower rank, or equal rank and
greater-or-equal count. -/
def findingLE (f g : CharFinding) : Prop :=
  threatRank f.threat_level < threatRank g.threat_level ∨
    (threatRank f.threat_level = threatRank g.threat_level ∧ g.count ≤ f.count)

instance : DecidableRel findingLE := fun f g => by
  unfold findingLE
  infer_instance

instance : IsTotal CharFinding findingLE := by
  constructor
  intro f g
  unfold findingLE
  omega

instance : IsTrans CharFinding findingLE := by
  constructor
  intro a b c hab hbc
  unfold findingLE at hab hbc ⊢
  omega

/-- Builds the `CharFinding` for one `char_data` entry: the true count is the
full number of recorded positions, while the stored positions are capped at
the first 50. -/
def mkFinding (c : Char) (ps : List Nat) : CharFinding :=
  let e := (invisibleEntry? c).getD ("", Category.formatting, ThreatLevel.low)
  { char := c
    name := e.1
    category := e.2.1
    threat_level := e.2.2
    count := ps.length
    positions := ps.take 50 }

/-- The findings list before sorting, in `char_data` insertion order. -/
def scanFindings0 (cs : List Char) : List CharFinding :=
  (charData cs).map (fun e => mkFinding e.1 e.2)

/-- `findings.sort(key=lambda f: (threat_order.get(f.threat_level, 3), -f.count))`.
Python's sort is stable; `List.insertionSort` with a non-strict total preorder
is the standard stable sort in this development. -/
def scanFindings (cs : List Char) : List CharFinding :=
  List.insertionSort findingLE (scanFindings0 cs)

/-- `categories[f.category] = categories.get(f.category, 0) + f.count`,
folded over the (sorted) findings. -/
def scanCategories (fs : List CharFinding) : List (Category × Nat) :=
  fs.foldl (fun d f => abump d f.category (fun m => m + f.count) f.count) []

/-- `categories.get(k, 0)`. -/
def catGet (d : List (Category × Nat)) (k : Category) : Nat :=
  (alookup d k).getD 0

/-- `total_invisible = sum(f.count for f in findings)`. -/
def scanTotal (fs : List CharFinding) : Nat :=
  (fs.map (·.count)).sum

/-- The smart-character counting loop of `scan`. -/
def smartLoop : List Char → List (Char × Nat) → List (Char × Nat)
  | [], d => d
  | c :: cs, d => smartLoop cs (if isSmart c then abump d c (fun m => m + 1) 1 else d)

/-- The optional smart-character findings: `None` when not requested; the
code's empty-dict branch and the map over a populated dict both yield the
mapped list. -/
def scanSmart (cs : List Char) (flag : Bool) : Option (List SmartCharFinding) :=
  if flag then
    some ((smartLoop cs []).map (fun e =>
      let r := (smartEntry? e.1).getD ("", "")
      { char := e.1, name := r.2, count := e.2, replacement := r.1 }))
  else none

/-- The context-inference if-chain of `scan`, on the computed
`total_invisible` and `categories`. -/
def scanContext (total : Nat) (cats : List (Category × Nat)) : ScanContext :=
  if total = 0 then
    { explanation := "No invisible characters detected. Your text is clean."
      likely_source := Source.noneSource }
  else if 0 < catGet cats Category.zeroWidth then
    { explanation := "Zero-width characters found. These are commonly inserted by AI language model tokenizers (especially ChatGPT\x27s newer models) and are invisible to the naked eye. AI detection tools may use these as signals, potentially causing false positives."
      likely_source := Source.tokenizerArtifact }
  else if 0 < catGet cats Category.bidi ∧ catGet cats Category.zeroWidth = 0 then
    { explanation := "Bidirectional marks found. These typically come from copying text that includes right-to-left language content or from certain web pages and document editors."
      likely_source := Source.copyPaste }
  else
    { explanation := "Unusual whitespace or formatting characters found. These may come from copy-pasting from formatted documents, web pages, or specific text editors."
      likely_source := Source.formattingSource }

/-- `scan(text, include_smart_chars=False) -> ScanResult`
(`unicode_scanner.scan`), assembled exactly in the order of the source:
findings are sorted first, then categories, total and context are computed
from the sorted findings. -/
def scan (text : String) (include_smart_chars : Bool) : ScanResult :=
  let cs := text.data
  let findings := scanFindings cs
  let categories := scanCategories findings
  let total := scanTotal findings
  { has_invisible_chars := decide (0 < total)
    total_invisible_count := total
    char_count := cs.length
    categories := categories
    findings := findings
    smart_chars := scanSmart cs include_smart_chars
    context := scanContext total categories }

/-- ASCII replacement used by `clean` for a smart character
(`SMART_CHARS[ch][0]`; only ever read when `isSmart c`). -/
def replOf (c : Char) : String :=
  ((smartEntry? c).getD ("", "")).1

/-- The single pass of `clean` over the text, producing the cleaned
character sequence and the `removals_count` dict.  Invisible characters are
dropped and tallied; smart characters are tallied and replaced by their
(possibly multi-character) ASCII replacement when `normalize` is set;
everything else is copied through. -/
def cleanLoop (normalize : Bool) : List Char → List (Char × Nat) →
    List Char × List (Char × Nat)
  | [], d => ([], d)
  | c :: cs, d =>
    if isInvisible c then
      cleanLoop normalize cs (abump d c (fun m => m + 1) 1)
    else if normalize && isSmart c then
      let r := cleanLoop normalize cs (abump d c (fun m => m + 1) 1)
      ((replOf c).data ++ r.1, r.2)
    else
      let r := cleanLoop normalize cs d
      (c :: r.1, r.2)

/-- Name lookup used when building the `removals` list of `clean`. -/
def removalName (c : Char) : String :=
  match invisibleEntry? c with
  | some e => e.1
  | none =>
    match smartEntry? c with
    | some e => e.2
    | none => "UNKNOWN"

/-- `clean(text, normalize_smart_chars=False) -> CleanResult`
(`unicode_scanner.clean`).  `chars_removed` sums the per-code-point counts of
the `removals` list, which is exactly the sum of the `removals_count`
values. -/
def clean (text : String) (normalize_smart_chars : Bool) : CleanResult :=
  let r := cleanLoop normalize_smart_chars text.data []
  { cleaned_text := String.mk r.1
    original_length := text.data.length
    cleaned_length := r.1.length
    chars_removed := (r.2.map (·.2)).sum
    removals := r.2.map (fun e => (e.1, removalName e.1, e.2)) }

/-- Detector verdicts ("likely_human" | "likely_ai" | "uncertain"). -/
inductive Verdict where
  | likely_ai
  | likely_human
  | uncertain
deriving DecidableEq

/-- `DetectionResult` (detectors/base.py); scores are floats in the code,
modelled as rationals.  `sentence_scores` entries are (sentence, score). -/
structure DetectionResult where
  detector : String
  detector_name : String
  verdict : Verdict
  ai_score : ℚ
  human_score : ℚ
  method : String
  note : String
  sentence_scores : Option (List (String × ℚ))
deriving DecidableEq

/-- Consensus values of the detect summary
("likely_ai" | "likely_human" | "mixed" | "uncertain"). -/
inductive Consensus where
  | likely_ai
  | likely_human
  | mixed
  | uncertain
deriving DecidableEq

/-- `DetectSummary` (models/schemas.py). -/
structure DetectSummary where
  consensus : Consensus
  agreement_ratio : ℚ
  average_ai_score : ℚ
  disclaimer : String
deriving DecidableEq

/-- The fixed disclaimer text of routers/detect.py. -/
def DISCLAIMER : String :=
  "AI detection is probabilistic, not definitive. No detector is reliable enough to make accusations of academic dishonesty. These results show what automated tools see - they are not proof of anything. This tool is for educational and transparency purposes only."

/-- Round-half-to-even to an integer, as Python's `round` does. -/
def roundHalfEven (q : ℚ) : ℤ :=
  let f := ⌊q⌋
  let r := q - (f : ℚ)
  if r < 1 / 2 then f
  else if 1 / 2 < r then f + 1
  else if f % 2 = 0 then f else f + 1

/-- Python's `round(x, 4)` on the exact-rational model of floats. -/
def round4 (q : ℚ) : ℚ :=
  (roundHalfEven (q * 10000) : ℚ) / 10000

/-- `_build_summary(results)` (routers/detect.py), over the successful
results only.  The returned `agreement_ratio` and `average_ai_score` are the
`round(..., 4)` of the computed values, exactly as in the source. -/
def buildSummary (results : List DetectionResult) : DetectSummary :=
  if results.isEmpty then
    { consensus := Consensus.uncertain
      agreement_ratio := 0
      average_ai_score := 0
      disclaimer := DISCLAIMER }
  else
    let verdicts := results.map (·.verdict)
    let ai_count := verdicts.count Verdict.likely_ai
    let human_count := verdicts.count Verdict.likely_human
    let total := verdicts.length
    let consensus :=
      if ai_count = total then Consensus.likely_ai
      else if human_count = total then Consensus.likely_human
      else if 0 < ai_count ∧ 0 < human_count then Consensus.mixed
      else Consensus.uncertain
    let majority := max (max ai_count human_count) (verdicts.count Verdict.uncertain)
    let agreement : ℚ := if total ≠ 0 then (majority : ℚ) / (total : ℚ) else 0
    let avg_ai : ℚ := (results.map (·.ai_score)).sum / (total : ℚ)
    { consensus := consensus
      agreement_ratio := round4 agreement
      average_ai_score := round4 avg_ai
      disclaimer := DISCLAIMER }

/-- One `score_deltas` entry of `compare_results`. -/
structure ScoreDelta where
  detector : String
  delta : ℚ
deriving DecidableEq

/-- One `changed_verdicts` entry of `compare_results`. -/
structure VerdictChange where
  detector : String
  before_verdict : Verdict
  after_verdict : Verdict
  before_ai_score : ℚ
  after_ai_score : ℚ
  score_delta : ℚ
deriving DecidableEq

/-- `cleaned_by_name = {r.detector: r for r in cleaned_results}` followed by
`.get(name)`: a later entry with the same detector id overwrites an earlier
one. -/
def cleanedByName (rs : List DetectionResult) (name : String) :
    Option DetectionResult :=
  rs.foldl (fun acc r => if r.detector = name then some r else acc) none

/-- The loop of `compare_results` over the original results: detectors
missing from the cleaned side are skipped; the recorded delta is
`round(cleaned.ai_score - orig.ai_score, 4)`; a changed-verdict entry is
added when the verdicts differ. -/
def compareLoop (cleaned : List DetectionResult) :
    List DetectionResult → List VerdictChange × List ScoreDelta
  | [] => ([], [])
  | o :: os =>
    let rest := compareLoop cleaned os
    match cleanedByName cleaned o.detector with
    | none => rest
    | some c =>
      let delta := c.ai_score - o.ai_score
      let sd : ScoreDelta := { detector := o.detector, delta := round4 delta }
      if o.verdict ≠ c.verdict then
        ({ detector := o.detector
           before_verdict := o.verdict
           after_verdict := c.verdict
           before_ai_score := round4 o.ai_score
           after_ai_score := round4 c.ai_score
           score_delta := round4 delta } :: rest.1, sd :: rest.2)
      else
        (rest.1, sd :: rest.2)

/-- `compare_results(original_results, cleaned_results)` (comparison.py),
returning `(changed_verdicts, score_deltas)`. -/
def compare_results (original_results cleaned_results : List DetectionResult) :
    List VerdictChange × List ScoreDelta :=
  compareLoop cleaned_results original_results

/-- The structured content of the insight sentence each branch of
`build_insight` interpolates into its English template. -/
inductive InsightMsg where
  | identicalTexts
  | noDetectors
  | verdictsChanged (chars_removed : Nat) (names : List String)
      (changed total : Nat)
  | scoresShifted (chars_removed : Nat) (avg : ℚ)
  | scoresStable (chars_removed : Nat)
deriving DecidableEq

/-- `avg_delta = sum(abs(d["delta"]) for d in score_deltas) / total_detectors`. -/
def meanAbsDelta (sd : List ScoreDelta) : ℚ :=
  (sd.map (fun d => |d.delta|)).sum / (sd.length : ℚ)

/-- `build_insight(chars_removed, changed_verdicts, score_deltas)`
(comparison.py), returning the insight (as structured data) and the
reliability assessment string. -/
def build_insight (chars_removed : Nat) (changed_verdicts : List VerdictChange)
    (score_deltas : List ScoreDelta) : InsightMsg × String :=
  if chars_removed = 0 then
    (InsightMsg.identicalTexts, "inconclusive")
  else
    let changed_count := changed_verdicts.length
    let total_detectors := score_deltas.length
    if total_detectors = 0 then
      (InsightMsg.noDetectors, "inconclusive")
    else
      let avg_delta := meanAbsDelta score_deltas
      if 0 < changed_count then
        (InsightMsg.verdictsChanged chars_removed
          (changed_verdicts.map (·.detector)) changed_count total_detectors,
         "byte_pattern_dependent")
      else if 0.05 < avg_delta then
        (InsightMsg.scoresShifted chars_removed avg_delta,
         "byte_pattern_dependent")
      else
        (InsightMsg.scoresStable chars_removed, "content_based")

/-- Spec-side description of the recorded positions: the 0-based offsets
(starting at `i`) of the occurrences of `c` in the remaining suffix. -/
def positionsFrom (c : Char) : List Char → Nat → List Nat
  | [], _ => []
  | x :: xs, i =>
    if x = c then i :: positionsFrom c xs (i + 1) else positionsFrom c xs (i + 1)

/-- Spec-side consensus rule, following the specification text: all
`likely_ai` -> `likely_ai`; all `likely_human` -> `likely_human`; both present
-> `mixed`; otherwise (all uncertain, or the empty set) -> `uncertain`. -/
def consensusSpec (vs : List Verdict) : Consensus :=
  if vs.isEmpty then Consensus.uncertain
  else if vs.all (· == Verdict.likely_ai) then Consensus.likely_ai
  else if vs.all (· == Verdict.likely_human) then Consensus.likely_human
  else if vs.any (· == Verdict.likely_ai) && vs.any (· == Verdict.likely_human) then
    Consensus.mixed
  else Consensus.uncertain

/-- Spec-side agreement ratio, amended for the output rounding the code
performs: size of the largest single-verdict group divided by the number of
results, rounded half-to-even to 4 decimal places, and 0 for no results. -/
def agreementSpec (vs : List Verdict) : ℚ :=
  if vs.isEmpty then 0
  else
    round4 (((max (max (vs.count Verdict.likely_ai) (vs.count Verdict.likely_human))
      (vs.count Verdict.uncertain) : Nat) : ℚ) / (vs.length : ℚ))

/-- Shorthand for building concrete `DetectionResult`s in examples. -/
def mkDR (name : String) (v : Verdict) (q : ℚ) : DetectionResult :=
  { detector := name
    detector_name := name
    verdict := v
    ai_score := q
    human_score := 1 - q
    method := "classifier"
    note := ""
    sentence_scores := none }

/-- Three successful results with verdicts ai, ai, human: the largest group
has 2 of 3 members. -/
def summaryCexResults : List DetectionResult :=
  [ mkDR "a" Verdict.likely_ai (9 / 10),
    mkDR "b" Verdict.likely_ai (8 / 10),
    mkDR "c" Verdict.likely_human (1 / 10) ]

/-- Original-side detector result for the rounding counterexample. -/
def cmpCexOriginal : List DetectionResult :=
  [ mkDR "d1" Verdict.likely_human 0 ]

/-- Cleaned-side detector result whose score moved by exactly 0.05004. -/
def cmpCexCleaned : List DetectionResult :=
  [ mkDR "d1" Verdict.likely_human (5004 / 100000) ]

/-- A text consisting of 100 zero-width spaces. -/
def hundredZwsp : String :=
  String.mk (List.replicate 100 '\u200B')

/-- Total number of recorded positions in a `char_data` accumulator, restricted
to the code points satisfying `q` (proof-side measure). -/
def posWeight (q : Char → Bool) (d : PosMap) : Nat :=
  (d.map (fun e => if q e.1 then e.2.length else 0)).sum

/-- Sum of the tallies of a `removals_count` dict (proof-side measure). -/
def sumCounts (d : List (Char × Nat)) : Nat :=
  (d.map (·.2)).sum

/-! ### Association-list (dict) lemmas -/

theorem alookup_abump_self [DecidableEq α] (d : List (α × β)) (a : α) (f : β → β)
    (init : β) : alookup (abump d a f init) a = some ((alookup d a).elim init f) := by
  induction d with
  | nil => simp [abump, alookup]
  | cons e d ih =>
    by_cases h : e.1 = a
    · simp [abump, alookup, h]
    · simp [abump, alookup, h, ih]

theorem alookup_abump_ne [DecidableEq α] (d : List (α × β)) {a a' : α} (f : β → β)
    (init : β) (h : a' ≠ a) : alookup (abump d a f init) a' = alookup d a' := by
  induction d with
  | nil => simp [abump, alookup, Ne.symm h]
  | cons e d ih =>
    by_cases he : e.1 = a
    · simp [abump, alookup, he, Ne.symm h]
    · by_cases he' : e.1 = a'
      · simp [abump, alookup, he, he', h]
      · simp [abump, alookup, he, he', ih]

theorem akeys_abump [DecidableEq α] (d : List (α × β)) (a : α) (f : β → β)
    (init : β) :
    akeys (abump d a f init) = if a ∈ akeys d then akeys d else akeys d ++ [a] := by
  induction d with
  | nil => simp [abump, akeys]
  | cons e d ih =>
    by_cases he : e.1 = a
    · simp [abump, akeys, he]
    · have hne : a ≠ e.1 := fun hh => he hh.symm
      simp only [abump, he, ite_false, if_false, akeys, List.map_cons] at ih ⊢
      rw [ih]
      by_cases hm : a ∈ List.map (fun x => x.1) d
      · simp [hm, hne]
      · simp [hm, hne]

theorem mem_akeys_abump [DecidableEq α] (d : List (α × β)) (a a' : α) (f : β → β)
    (init : β) : a' ∈ akeys (abump d a f init) ↔ a' ∈ akeys d ∨ a' = a := by
  rw [akeys_abump]
  split
  · rename_i hm
    constructor
    · exact fun h => Or.inl h
    · rintro (h | rfl)
      · exact h
      · exact hm
  · simp

theorem nodup_akeys_abump [DecidableEq α] (d : List (α × β)) (a : α) (f : β → β)
    (init : β) (h : (akeys d).Nodup) : (akeys (abump d a f init)).Nodup := by
  rw [akeys_abump]
  split
  · exact h
  · rename_i hm
    simp [List.nodup_append, h, hm]

theorem mem_abump_elim [DecidableEq α] {e : α × β} (d : List (α × β)) (a : α)
    (f : β → β) (init : β) (h : e ∈ abump d a f init) : e ∈ d ∨ e.1 = a := by
  induction d with
  | nil =>
    simp only [abump, List.mem_singleton] at h
    subst h
    exact Or.inr rfl
  | cons e' d ih =>
    by_cases he : e'.1 = a
    · simp only [abump, he, if_true, ite_true, List.mem_cons] at h
      rcases h with h | h
      · subst h
        exact Or.inr rfl
      · exact Or.inl (List.mem_cons_of_mem _ h)
    · simp only [abump, he, if_false, ite_false, List.mem_cons] at h
      rcases h with h | h
      · subst h
        exact Or.inl (List.mem_cons_self _ _)
      · rcases ih h with h' | h'
        · exact Or.inl (List.mem_cons_of_mem _ h')
        · exact Or.inr h'

theorem alookup_eq_some_of_mem [DecidableEq α] {a : α} {b : β} {d : List (α × β)}
    (hnd : (akeys d).Nodup) (h : (a, b) ∈ d) : alookup d a = some b := by
  induction d with
  | nil => cases h
  | cons e d ih =>
    rcases List.mem_cons.mp h with h | h
    · simp [alookup, ← h]
    · have hmem : a ∈ akeys d := List.mem_map.mpr ⟨(a, b), h, rfl⟩
      have hne : e.1 ≠ a := by
        intro hh
        exact (List.nodup_cons.mp (by simpa [akeys] using hnd)).1 (hh ▸ hmem)
      simp [alookup, hne, ih (by simpa [akeys] using (List.nodup_cons.mp
        (by simpa [akeys] using hnd)).2) h]

theorem mem_of_alookup_eq_some [DecidableEq α] {a : α} {b : β} {d : List (α × β)}
    (h : alookup d a = some b) : (a, b) ∈ d := by
  induction d with
  | nil => simp [alookup] at h
  | cons e d ih =>
    by_cases he : e.1 = a
    · have : e = (a, b) := by
        cases e
        simp only [alookup, he, if_true, ite_true, Option.some.injEq] at h
        simp_all
      rw [this]
      exact List.mem_cons_self _ _
    · simp only [alookup, he, if_false, ite_false] at h
      exact List.mem_cons_of_mem _ (ih h)

theorem exists_alookup_of_mem_akeys [DecidableEq α] {a : α} {d : List (α × β)}
    (h : a ∈ akeys d) : ∃ b, alookup d a = some b := by
  induction d with
  | nil => cases h
  | cons e d ih =>
    by_cases he : e.1 = a
    · exact ⟨e.2, by simp [alookup, he]⟩
    · have h' : a ∈ akeys d := by
        simp only [akeys, List.map_cons, List.mem_cons] at h
        rcases h with hh | hh
        · exact absurd hh.symm he
        · simpa [akeys] using hh
      obtain ⟨b, hb⟩ := ih h'
      exact ⟨b, by simp [alookup, he, hb]⟩

theorem sumCounts_abump (d : List (Char × Nat)) (c : Char) (n : Nat) :
    sumCounts (abump d c (fun m => m + n) n) = sumCounts d + n := by
  induction d with
  | nil => simp [abump, sumCounts]
  | cons e d ih =>
    by_cases he : e.1 = c
    · simp only [abump, he, if_true, ite_true, sumCounts, List.map_cons, List.sum_cons]
      omega
    · simp only [abump, he, if_false, ite_false, sumCounts, List.map_cons,
        List.sum_cons] at ih ⊢
      omega

theorem posWeight_addPos (q : Char → Bool) (d : PosMap) (c : Char) (i : Nat) :
    posWeight q (addPos d c i) = posWeight q d + (if q c then 1 else 0) := by
  unfold addPos
  induction d with
  | nil => simp [abump, posWeight]
  | cons e d ih =>
    by_cases he : e.1 = c
    · subst he
      simp only [abump, if_true, ite_true, posWeight, List.map_cons, List.sum_cons]
      by_cases hq : q e.1
      · simp [posWeight, hq, List.length_append]
        try omega
      · simp [posWeight, hq]
        try omega
    · simp only [abump, he, if_false, ite_false, posWeight, List.map_cons,
        List.sum_cons] at ih ⊢
      omega


/-! ### Scanner loop lemmas -/

theorem posWeight_scanLoop (q : Char → Bool) (cs : List Char) :
    ∀ (i : Nat) (d : PosMap),
      posWeight q (scanLoop cs i d) =
        posWeight q d + cs.countP (fun c => isInvisible c && q c) := by
  induction cs with
  | nil => intro i d; simp [scanLoop]
  | cons c cs ih =>
    intro i d
    simp only [scanLoop, List.countP_cons]
    by_cases hc : isInvisible c
    · rw [if_pos hc, ih, posWeight_addPos]
      simp [hc]
      omega
    · rw [if_neg hc, ih]
      simp [hc]

theorem alookup_scanLoop (c : Char) (cs : List Char) :
    ∀ (i : Nat) (d : PosMap),
      (alookup (scanLoop cs i d) c).getD [] =
        (alookup d c).getD [] ++
          (if isInvisible c then positionsFrom c cs i else []) := by
  induction cs with
  | nil => intro i d; simp [scanLoop, positionsFrom]
  | cons x xs ih =>
    intro i d
    simp only [scanLoop]
    by_cases hx : isInvisible x
    · rw [if_pos hx, ih]
      by_cases hcx : x = c
      · subst hcx
        rw [show addPos d x i = abump d x (fun ps => ps ++ [i]) [i] from rfl,
          alookup_abump_self]
        cases h : alookup d x with
        | none => simp [h, positionsFrom, hx]
        | some ps => simp [h, positionsFrom, hx]
      · rw [show addPos d x i = abump d x (fun ps => ps ++ [i]) [i] from rfl,
          alookup_abump_ne d _ _ (Ne.symm hcx)]
        simp [positionsFrom, hcx, Ne.symm hcx]
    · rw [if_neg hx, ih]
      by_cases hcx : x = c
      · subst hcx
        simp [positionsFrom, hx]
      · simp [positionsFrom, hcx, Ne.symm hcx]

theorem mem_akeys_scanLoop (c : Char) (cs : List Char) :
    ∀ (i : Nat) (d : PosMap),
      c ∈ akeys (scanLoop cs i d) ↔
        c ∈ akeys d ∨ (isInvisible c = true ∧ c ∈ cs) := by
  induction cs with
  | nil => intro i d; simp [scanLoop]
  | cons x xs ih =>
    intro i d
    simp only [scanLoop]
    by_cases hx : isInvisible x
    · rw [if_pos hx, ih]
      rw [show addPos d x i = abump d x (fun ps => ps ++ [i]) [i] from rfl,
        mem_akeys_abump]
      constructor
      · rintro ((h | rfl) | h)
        · exact Or.inl h
        · exact Or.inr ⟨hx, List.mem_cons_self _ _⟩
        · exact Or.inr ⟨h.1, List.mem_cons_of_mem _ h.2⟩
      · rintro (h | ⟨h1, h2⟩)
        · exact Or.inl (Or.inl h)
        · rcases List.mem_cons.mp h2 with rfl | h2
          · exact Or.inl (Or.inr rfl)
          · exact Or.inr ⟨h1, h2⟩
    · rw [if_neg hx, ih]
      constructor
      · rintro (h | ⟨h1, h2⟩)
        · exact Or.inl h
        · exact Or.inr ⟨h1, List.mem_cons_of_mem _ h2⟩
      · rintro (h | ⟨h1, h2⟩)
        · exact Or.inl h
        · rcases List.mem_cons.mp h2 with rfl | h2
          · exact absurd h1 (by simp [hx])
          · exact Or.inr ⟨h1, h2⟩

theorem nodup_akeys_scanLoop (cs : List Char) :
    ∀ (i : Nat) (d : PosMap), (akeys d).Nodup → (akeys (scanLoop cs i d)).Nodup := by
  induction cs with
  | nil => intro i d h; simpa [scanLoop] using h
  | cons x xs ih =>
    intro i d h
    simp only [scanLoop]
    by_cases hx : isInvisible x
    · rw [if_pos hx]
      exact ih _ _ (nodup_akeys_abump _ _ _ _ h)
    · rw [if_neg hx]
      exact ih _ _ h

theorem charData_keys_nodup (cs : List Char) : (akeys (charData cs)).Nodup :=
  nodup_akeys_scanLoop cs 0 [] (by simp [akeys])

theorem charData_mem {c : Char} {ps : List Nat} {cs : List Char}
    (h : (c, ps) ∈ charData cs) :
    isInvisible c = true ∧ c ∈ cs ∧ ps = positionsFrom c cs 0 := by
  have hk : c ∈ akeys (charData cs) := List.mem_map.mpr ⟨(c, ps), h, rfl⟩
  have h2 := (mem_akeys_scanLoop c cs 0 []).mp hk
  simp only [akeys, List.map_nil, List.not_mem_nil, false_or] at h2
  have hl : alookup (charData cs) c = some ps :=
    alookup_eq_some_of_mem (charData_keys_nodup cs) h
  have h3 : (alookup (charData cs) c).getD [] =
      (alookup ([] : PosMap) c).getD [] ++
        (if isInvisible c then positionsFrom c cs 0 else []) :=
    alookup_scanLoop c cs 0 []
  rw [hl] at h3
  simp only [alookup, Option.getD_some, Option.getD_none, h2.1, if_true, ite_true,
    List.nil_append] at h3
  exact ⟨h2.1, h2.2, h3⟩

theorem charData_exists {c : Char} {cs : List Char} (h1 : isInvisible c = true)
    (h2 : c ∈ cs) : ∃ ps, (c, ps) ∈ charData cs := by
  have hk : c ∈ akeys (charData cs) :=
    (mem_akeys_scanLoop c cs 0 []).mpr (Or.inr ⟨h1, h2⟩)
  obtain ⟨ps, hps⟩ := exists_alookup_of_mem_akeys hk
  exact ⟨ps, mem_of_alookup_eq_some hps⟩

theorem positionsFrom_length (c : Char) (cs : List Char) :
    ∀ i, (positionsFrom c cs i).length = cs.count c := by
  induction cs with
  | nil => simp [positionsFrom]
  | cons x xs ih =>
    intro i
    by_cases h : x = c
    · simp [positionsFrom, h, List.count_cons, ih]
    · simp [positionsFrom, h, List.count_cons, ih, beq_iff_eq]


/-! ### Findings lemmas -/

theorem mem_scanFindings {f : CharFinding} {cs : List Char} :
    f ∈ scanFindings cs ↔ f ∈ scanFindings0 cs := by
  simp [scanFindings]

theorem scanFindings0_shape {f : CharFinding} {cs : List Char}
    (h : f ∈ scanFindings0 cs) :
    ∃ c ps, (c, ps) ∈ charData cs ∧ f = mkFinding c ps := by
  obtain ⟨e, he, hf⟩ := List.mem_map.mp h
  exact ⟨e.1, e.2, he, hf.symm⟩

theorem scanFindings_shape {f : CharFinding} {cs : List Char}
    (h : f ∈ scanFindings cs) :
    isInvisible f.char = true ∧ f.char ∈ cs ∧
      f.count = cs.count f.char ∧
      f.positions = (positionsFrom f.char cs 0).take 50 ∧
      charCategory f.char = some f.category := by
  obtain ⟨c, ps, hmem, rfl⟩ := scanFindings0_shape (mem_scanFindings.mp h)
  obtain ⟨hinv, hcs, hps⟩ := charData_mem hmem
  obtain ⟨e, he⟩ := Option.isSome_iff_exists.mp hinv
  refine ⟨by simpa [mkFinding] using hinv, by simpa [mkFinding] using hcs, ?_, ?_, ?_⟩
  · simp [mkFinding, hps, positionsFrom_length]
  · simp [mkFinding, hps]
  · simp [mkFinding, charCategory, he]

theorem scanFindings_chars_nodup (cs : List Char) :
    ((scanFindings cs).map (·.char)).Nodup := by
  have hperm : List.Perm (scanFindings cs) (scanFindings0 cs) :=
    List.perm_insertionSort _ _
  rw [(hperm.map (fun f : CharFinding => f.char)).nodup_iff]
  have hfun : ((fun f : CharFinding => f.char) ∘ fun e : Char × List Nat =>
      mkFinding e.1 e.2) = fun e : Char × List Nat => e.1 :=
    funext fun e => by simp [mkFinding]
  have : (scanFindings0 cs).map (·.char) = akeys (charData cs) := by
    unfold scanFindings0 akeys
    rw [List.map_map, hfun]
  rw [this]
  exact charData_keys_nodup cs

theorem scanFindings_exists {c : Char} {cs : List Char}
    (h1 : isInvisible c = true) (h2 : c ∈ cs) :
    ∃ f, f ∈ scanFindings cs ∧ f.char = c := by
  obtain ⟨ps, hps⟩ := charData_exists h1 h2
  refine ⟨mkFinding c ps, ?_, by simp [mkFinding]⟩
  rw [mem_scanFindings]
  exact List.mem_map.mpr ⟨(c, ps), hps, rfl⟩

theorem sum_filter_findings0 (q : Char → Bool) (d : PosMap) :
    (((d.map (fun e => mkFinding e.1 e.2)).filter
      (fun f => q f.char)).map (·.count)).sum = posWeight q d := by
  induction d with
  | nil => simp [posWeight]
  | cons e d ih =>
    by_cases hq : q e.1
    · simp [List.filter_cons, mkFinding, hq, posWeight] at ih ⊢
      omega
    · simp [List.filter_cons, mkFinding, hq, posWeight] at ih ⊢
      omega

theorem sum_filter_scanFindings (cs : List Char) (q : Char → Bool) :
    (((scanFindings cs).filter (fun f => q f.char)).map (·.count)).sum =
      cs.countP (fun c => isInvisible c && q c) := by
  have hperm : List.Perm (scanFindings cs) (scanFindings0 cs) :=
    List.perm_insertionSort _ _
  rw [((hperm.filter _).map (fun f : CharFinding => f.count)).sum_eq]
  unfold scanFindings0
  rw [sum_filter_findings0]
  have h := posWeight_scanLoop q cs 0 []
  simpa [posWeight, charData] using h

theorem scanTotal_eq (cs : List Char) :
    scanTotal (scanFindings cs) = cs.countP isInvisible := by
  have h := sum_filter_scanFindings cs (fun _ => true)
  simp only [List.filter_true, Bool.and_true] at h
  simpa [scanTotal] using h

/-! ### Category aggregation lemmas -/

theorem catGet_abump_self (d : List (Category × Nat)) (k : Category) (n : Nat) :
    catGet (abump d k (fun m => m + n) n) k = catGet d k + n := by
  unfold catGet
  rw [alookup_abump_self]
  cases h : alookup d k <;> simp [h]

theorem catGet_abump_ne (d : List (Category × Nat)) {k k' : Category} (n : Nat)
    (h : k' ≠ k) : catGet (abump d k (fun m => m + n) n) k' = catGet d k' := by
  unfold catGet
  rw [alookup_abump_ne d _ _ h]

theorem catGet_foldl (fs : List CharFinding) :
    ∀ (d : List (Category × Nat)) (k : Category),
      catGet (fs.foldl (fun d f => abump d f.category (fun m => m + f.count)
        f.count) d) k =
      catGet d k + ((fs.filter (fun f => f.category == k)).map (·.count)).sum := by
  induction fs with
  | nil => intro d k; simp
  | cons f fs ih =>
    intro d k
    simp only [List.foldl_cons, List.filter_cons]
    by_cases hk : f.category = k
    · subst hk
      rw [ih, catGet_abump_self]
      simp only [beq_self_eq_true, if_true, ite_true, List.map_cons, List.sum_cons]
      omega
    · rw [ih, catGet_abump_ne _ _ (Ne.symm hk)]
      simp [hk]

theorem catGet_scanCategories (cs : List Char) (k : Category) :
    catGet (scanCategories (scanFindings cs)) k = cs.countP (isCat k) := by
  unfold scanCategories
  rw [catGet_foldl]
  have hfilter : (scanFindings cs).filter (fun f => f.category == k)
      = (scanFindings cs).filter (fun f => isCat k f.char) := by
    apply List.filter_congr
    intro f hf
    obtain ⟨_, _, _, _, hcat⟩ := scanFindings_shape hf
    by_cases h : f.category = k <;> simp [isCat, hcat, h]
  rw [hfilter, sum_filter_scanFindings]
  have hq : (fun c => isInvisible c && isCat k c) = isCat k := by
    funext c
    unfold isInvisible isCat charCategory
    cases h : invisibleEntry? c <;> simp [h]
  rw [hq]
  simp [catGet, alookup]


/-! ### Cleaner lemmas -/

theorem getD0_abump_self [DecidableEq α] (d : List (α × Nat)) (a : α) (m : Nat) :
    (alookup (abump d a (fun k => k + m) m) a).getD 0 = (alookup d a).getD 0 + m := by
  rw [alookup_abump_self]
  cases h : alookup d a <;> simp [h]

theorem getD0_abump_ne [DecidableEq α] (d : List (α × Nat)) {a a' : α} (m : Nat)
    (h : a' ≠ a) :
    (alookup (abump d a (fun k => k + m) m) a').getD 0 = (alookup d a').getD 0 := by
  rw [alookup_abump_ne d _ _ h]

theorem sumCounts_cleanLoop (n : Bool) (cs : List Char) :
    ∀ d, sumCounts (cleanLoop n cs d).2 =
      sumCounts d + cs.countP (fun c => isInvisible c || (n && isSmart c)) := by
  induction cs with
  | nil => intro d; simp [cleanLoop]
  | cons c cs ih =>
    intro d
    by_cases h1 : isInvisible c
    · simp only [cleanLoop, h1, if_true, ite_true, List.countP_cons]
      rw [ih, sumCounts_abump]
      simp [h1]
      omega
    · by_cases h2 : (n && isSmart c) = true
      · simp only [cleanLoop, h1, Bool.false_eq_true, if_false, ite_false, h2, if_true, ite_true,
          List.countP_cons]
        rw [ih, sumCounts_abump]
        simp [h1, h2]
        omega
      · simp only [cleanLoop, h1, h2, Bool.false_eq_true, if_false, ite_false, List.countP_cons]
        rw [ih]
        simp [h1, h2]

theorem length_cleanLoop (cs : List Char) :
    ∀ d, (cleanLoop false cs d).1.length + sumCounts (cleanLoop false cs d).2 =
      cs.length + sumCounts d := by
  induction cs with
  | nil => intro d; simp [cleanLoop]
  | cons c cs ih =>
    intro d
    by_cases h1 : isInvisible c
    · simp only [cleanLoop, h1, if_true, ite_true, List.length_cons]
      have h := ih (abump d c (fun m => m + 1) 1)
      rw [sumCounts_abump] at h
      omega
    · simp only [cleanLoop, h1, Bool.false_eq_true, if_false, ite_false, Bool.false_and,
        List.length_cons]
      have h := ih d
      omega

theorem smart_replacement_chars : ∀ e ∈ SMART_CHARS, ∀ x ∈ e.2.1.data,
    isInvisible x = false ∧ isSmart x = false := by decide

theorem replOf_chars {c : Char} (h : isSmart c = true) :
    ∀ x ∈ (replOf c).data, isInvisible x = false ∧ isSmart x = false := by
  intro x hx
  unfold isSmart smartEntry? at h
  cases hfind : SMART_CHARS.find? (fun e => e.1 == c) with
  | none => rw [hfind] at h; simp at h
  | some e =>
    have hmem := List.mem_of_find?_eq_some hfind
    have hr : replOf c = e.2.1 := by
      unfold replOf smartEntry?
      rw [hfind]
      rfl
    rw [hr] at hx
    exact smart_replacement_chars e hmem x hx

theorem cleanLoop_chars (n : Bool) (cs : List Char) :
    ∀ (d : List (Char × Nat)) (x : Char), x ∈ (cleanLoop n cs d).1 →
      isInvisible x = false ∧ (n = true → isSmart x = false) := by
  induction cs with
  | nil => intro d x hx; simp [cleanLoop] at hx
  | cons c cs ih =>
    intro d x hx
    by_cases h1 : isInvisible c
    · simp only [cleanLoop, h1, if_true, ite_true] at hx
      exact ih _ _ hx
    · by_cases h2 : (n && isSmart c) = true
      · simp only [cleanLoop, h1, Bool.false_eq_true, if_false, ite_false, h2, if_true, ite_true] at hx
        rcases List.mem_append.mp hx with hx | hx
        · have hs : isSmart c = true := by
            revert h2
            cases isSmart c <;> cases n <;> simp
          have hres := replOf_chars hs x hx
          exact ⟨hres.1, fun _ => hres.2⟩
        · exact ih _ _ hx
      · simp only [cleanLoop, h1, h2, Bool.false_eq_true, if_false, ite_false, List.mem_cons] at hx
        rcases hx with rfl | hx
        · refine ⟨by simpa using h1, fun hn => ?_⟩
          subst hn
          simpa using h2
        · exact ih _ _ hx

theorem cleanLoop_copy (n : Bool) (cs : List Char)
    (h : ∀ c ∈ cs, isInvisible c = false ∧ (n = true → isSmart c = false)) :
    ∀ d, cleanLoop n cs d = (cs, d) := by
  induction cs with
  | nil => intro d; simp [cleanLoop]
  | cons c cs ih =>
    intro d
    have hc := h c (List.mem_cons_self _ _)
    have hrest := fun x hx => h x (List.mem_cons_of_mem _ hx)
    have h2 : (n && isSmart c) = false := by
      by_cases hn : n = true
      · subst hn
        simp [hc.2 rfl]
      · have : n = false := by revert hn; cases n <;> simp
        subst this
        simp
    simp [cleanLoop, hc.1, h2, ih hrest]

theorem alookup_cleanLoop (n : Bool) (cs : List Char) (c : Char) :
    ∀ d, (alookup (cleanLoop n cs d).2 c).getD 0 =
      (alookup d c).getD 0 +
        cs.countP (fun x => x == c && (isInvisible x || (n && isSmart x))) := by
  induction cs with
  | nil => intro d; simp [cleanLoop]
  | cons x xs ih =>
    intro d
    by_cases h1 : isInvisible x
    · simp only [cleanLoop, h1, if_true, ite_true, List.countP_cons]
      rw [ih]
      by_cases hxc : x = c
      · subst hxc
        rw [getD0_abump_self]
        simp [h1]
        omega
      · rw [getD0_abump_ne _ _ (Ne.symm hxc)]
        simp [hxc]
    · by_cases h2 : (n && isSmart x) = true
      · simp only [cleanLoop, h1, Bool.false_eq_true, if_false, ite_false, h2, if_true, ite_true,
          List.countP_cons]
        rw [ih]
        by_cases hxc : x = c
        · subst hxc
          rw [getD0_abump_self]
          simp [h1, h2]
          omega
        · rw [getD0_abump_ne _ _ (Ne.symm hxc)]
          simp [hxc]
      · simp only [cleanLoop, h1, h2, Bool.false_eq_true, if_false, ite_false, List.countP_cons]
        rw [ih]
        simp [h1, h2]

theorem cleanLoop_keys_nodup (n : Bool) (cs : List Char) :
    ∀ d, (akeys d).Nodup → (akeys (cleanLoop n cs d).2).Nodup := by
  induction cs with
  | nil => intro d h; simpa [cleanLoop] using h
  | cons c cs ih =>
    intro d h
    by_cases h1 : isInvisible c
    · simp only [cleanLoop, h1, if_true, ite_true]
      exact ih _ (nodup_akeys_abump _ _ _ _ h)
    · by_cases h2 : (n && isSmart c) = true
      · simp only [cleanLoop, h1, Bool.false_eq_true, if_false, ite_false, h2, if_true, ite_true]
        exact ih _ (nodup_akeys_abump _ _ _ _ h)
      · simp only [cleanLoop, h1, h2, Bool.false_eq_true, if_false, ite_false]
        exact ih _ h

theorem cleanLoop_entry (n : Bool) (cs : List Char) :
    ∀ d (e : Char × Nat), e ∈ (cleanLoop n cs d).2 →
      e ∈ d ∨ (isInvisible e.1 || (n && isSmart e.1)) = true := by
  induction cs with
  | nil => intro d e he; exact Or.inl he
  | cons c cs ih =>
    intro d e he
    by_cases h1 : isInvisible c
    · simp only [cleanLoop, h1, if_true, ite_true] at he
      rcases ih _ _ he with h | h
      · rcases mem_abump_elim _ _ _ _ h with h | h
        · exact Or.inl h
        · exact Or.inr (by simp [h, h1])
      · exact Or.inr h
    · by_cases h2 : (n && isSmart c) = true
      · simp only [cleanLoop, h1, Bool.false_eq_true, if_false, ite_false, h2, if_true, ite_true] at he
        rcases ih _ _ he with h | h
        · rcases mem_abump_elim _ _ _ _ h with h | h
          · exact Or.inl h
          · exact Or.inr (by simp [h, h2])
        · exact Or.inr h
      · simp only [cleanLoop, h1, h2, Bool.false_eq_true, if_false, ite_false] at he
        exact ih _ _ he


/-! ### Summary lemmas -/

theorem count_eq_length_iff_all (vs : List Verdict) (a : Verdict) :
    vs.count a = vs.length ↔ vs.all (· == a) = true := by
  constructor
  · intro h
    rw [List.all_eq_true]
    intro b hb
    exact beq_iff_eq.mpr (List.count_eq_length.mp h b hb).symm
  · intro h
    rw [List.count_eq_length]
    intro b hb
    exact (beq_iff_eq.mp (List.all_eq_true.mp h b hb)).symm

theorem pos_count_iff_any (vs : List Verdict) (a : Verdict) :
    0 < vs.count a ↔ vs.any (· == a) = true := by
  rw [List.count_pos_iff, List.any_eq_true]
  constructor
  · intro h
    exact ⟨a, h, beq_iff_eq.mpr rfl⟩
  · rintro ⟨b, hb, hba⟩
    rwa [← beq_iff_eq.mp hba]

theorem buildSummary_spec (rs : List DetectionResult) :
    (buildSummary rs).consensus = consensusSpec (rs.map (·.verdict)) ∧
    (buildSummary rs).agreement_ratio = agreementSpec (rs.map (·.verdict)) := by
  by_cases hemp : rs = []
  · subst hemp
    exact ⟨by simp [buildSummary, consensusSpec], by simp [buildSummary, agreementSpec]⟩
  · have hni : rs.isEmpty = false := by simpa [List.isEmpty_iff] using hemp
    have hvs : (rs.map (·.verdict)).isEmpty = false := by
      simp [List.isEmpty_iff, hemp]
    have hlen : (rs.map (·.verdict)).length ≠ 0 := by
      simpa [List.isEmpty_iff, List.length_eq_zero] using hemp
    constructor
    · unfold buildSummary consensusSpec
      simp only [hni, hvs, Bool.false_eq_true, if_false, ite_false]
      rw [if_congr (count_eq_length_iff_all _ Verdict.likely_ai) rfl rfl,
        if_congr (count_eq_length_iff_all _ Verdict.likely_human) rfl rfl,
        if_congr (iff_of_eq (congrArg₂ And
          (propext (pos_count_iff_any _ Verdict.likely_ai))
          (propext (pos_count_iff_any _ Verdict.likely_human))))
          rfl rfl,
        if_congr (Iff.symm (iff_of_eq (Bool.and_eq_true _ _))) rfl rfl]
    · unfold buildSummary agreementSpec
      simp only [hni, hvs, Bool.false_eq_true, if_false, ite_false]
      rw [if_pos hlen]

/-! ### Comparison lemmas -/

theorem compareLoop_deltas (cl : List DetectionResult) :
    ∀ os, (compareLoop cl os).2 = os.filterMap (fun o =>
      (cleanedByName cl o.detector).map (fun c =>
        { detector := o.detector, delta := round4 (c.ai_score - o.ai_score) })) := by
  intro os
  induction os with
  | nil => simp [compareLoop]
  | cons o os ih =>
    simp only [compareLoop, List.filterMap_cons]
    cases h : cleanedByName cl o.detector with
    | none => simpa [h] using ih
    | some c =>
      by_cases hv : o.verdict ≠ c.verdict
      · simp [hv, ih]
      · simp [hv, ih]

theorem build_insight_assessment (cr : Nat) (cv : List VerdictChange)
    (sd : List ScoreDelta) :
    (build_insight cr cv sd).2 =
      if cr = 0 then "inconclusive"
      else if sd.length = 0 then "inconclusive"
      else if 0 < cv.length then "byte_pattern_dependent"
      else if 0.05 < meanAbsDelta sd then "byte_pattern_dependent"
      else "content_based" := by
  simp only [build_insight]
  split_ifs <;> rfl


/-! ### Claim theorems -/

/-- Claim C1: for every input text, `scan` returns one `CharFinding` per
distinct invisible-table code point present in the text (the findings carry
pairwise-distinct code points, and every invisible code point occurring in the
text has a finding); each finding's `count` is the exact number of occurrences
of its code point; its `positions` list is the first 50 of the 0-based
code-point offsets of those occurrences; and the finding counts sum to
`total_invisible_count`. -/
theorem C1_scan_findings (text : String) (b : Bool) :
    (∀ f ∈ (scan text b).findings,
      isInvisible f.char = true ∧
      f.count = text.data.count f.char ∧
      f.positions = (positionsFrom f.char text.data 0).take 50) ∧
    ((scan text b).findings.map (fun f => f.char)).Nodup ∧
    (∀ c, isInvisible c = true → c ∈ text.data →
      ∃ f, f ∈ (scan text b).findings ∧ f.char = c) ∧
    ((scan text b).findings.map (fun f => f.count)).sum =
      (scan text b).total_invisible_count := by
  have hfind : (scan text b).findings = scanFindings text.data := rfl
  refine ⟨?_, ?_, ?_, rfl⟩
  · intro f hf
    rw [hfind] at hf
    obtain ⟨h1, _, h3, h4, _⟩ := scanFindings_shape hf
    exact ⟨h1, h3, h4⟩
  · rw [hfind]
    exact scanFindings_chars_nodup _
  · intro c h1 h2
    rw [hfind]
    exact scanFindings_exists h1 h2

/-- Witness for C1: on a text of 100 zero-width spaces the (only) finding for
U+200B has `count = 100` and exactly 50 stored positions. -/
theorem C1_scan_findings_witness :
    isInvisible '\u200B' = true ∧ '\u200B' ∈ hundredZwsp.data ∧
    (∃ f, f ∈ (scan hundredZwsp false).findings ∧ f.char = '\u200B' ∧
      f.count = 100 ∧ f.positions.length = 50) := by
  have h := C1_scan_findings hundredZwsp false
  have h1 : isInvisible '\u200B' = true := by decide
  have h2 : '\u200B' ∈ hundredZwsp.data := by
    show '\u200B' ∈ List.replicate 100 '\u200B'
    simp [List.mem_replicate]
  obtain ⟨f, hf, hc⟩ := h.2.2.1 '\u200B' h1 h2
  refine ⟨h1, h2, f, hf, hc, ?_, ?_⟩
  · rw [(h.1 f hf).2.1, hc]
    show (List.replicate 100 '\u200B').count '\u200B' = 100
    exact List.count_replicate_self _ _
  · rw [(h.1 f hf).2.2, hc, List.length_take, positionsFrom_length]
    show min 50 ((List.replicate 100 '\u200B').count '\u200B') = 50
    rw [List.count_replicate_self]
    decide

/-- Claim C2: the findings of `scan` are sorted with primary key threat-level
rank ascending and secondary key count descending (`findingLE`), and remaining
ties are broken deterministically by keeping insertion (first-occurrence)
order: any key-compatible pair of the unsorted findings list survives as a
sublist of the sorted output (stability). -/
theorem C2_scan_findings_sorted (text : String) (b : Bool) :
    List.Sorted findingLE (scan text b).findings ∧
    (∀ f g : CharFinding, findingLE f g →
      List.Sublist [f, g] (scanFindings0 text.data) →
      List.Sublist [f, g] (scan text b).findings) := by
  constructor
  · exact List.sorted_insertionSort findingLE _
  · intro f g hfg hsub
    exact List.pair_sublist_insertionSort hfg hsub

/-- Witness for C2: EN QUAD and EM QUAD tie (both low threat, count 1) in
"a\u2000b\u2001c", and the sorted findings keep their first-occurrence
order. -/
theorem C2_scan_findings_sorted_witness :
    findingLE (mkFinding '\u2000' [1]) (mkFinding '\u2001' [3]) ∧
    List.Sublist [mkFinding '\u2000' [1], mkFinding '\u2001' [3]]
      (scanFindings0 ("a\u2000b\u2001c").data) ∧
    List.Sublist [mkFinding '\u2000' [1], mkFinding '\u2001' [3]]
      (scan "a\u2000b\u2001c" false).findings := by
  have h1 : findingLE (mkFinding '\u2000' [1]) (mkFinding '\u2001' [3]) := by
    unfold findingLE mkFinding
    right
    exact ⟨by decide, by decide⟩
  have h2 : scanFindings0 ("a\u2000b\u2001c").data =
      [mkFinding '\u2000' [1], mkFinding '\u2001' [3]] := by decide
  have h3 : List.Sublist [mkFinding '\u2000' [1], mkFinding '\u2001' [3]]
      (scanFindings0 ("a\u2000b\u2001c").data) := by
    rw [h2]
  exact ⟨h1, h3, (C2_scan_findings_sorted "a\u2000b\u2001c" false).2 _ _ h1 h3⟩

/-- Claim C4: cleaning is idempotent — cleaning the cleaned text again (with
the same `normalize_smart_chars` flag) changes nothing and removes zero
characters. -/
theorem C4_clean_idempotent (text : String) (n : Bool) :
    (clean (clean text n).cleaned_text n).cleaned_text =
      (clean text n).cleaned_text ∧
    (clean (clean text n).cleaned_text n).chars_removed = 0 := by
  have hchars : ∀ x ∈ (clean text n).cleaned_text.data,
      isInvisible x = false ∧ (n = true → isSmart x = false) := by
    intro x hx
    exact cleanLoop_chars n text.data [] x hx
  have hcopy := cleanLoop_copy n (clean text n).cleaned_text.data hchars []
  constructor
  · show String.mk (cleanLoop n (clean text n).cleaned_text.data []).1 =
      (clean text n).cleaned_text
    rw [hcopy]
  · show sumCounts (cleanLoop n (clean text n).cleaned_text.data []).2 = 0
    rw [hcopy]
    rfl

/-- Claim C7: `likely_source` follows the deterministic priority rule — no
invisible characters gives "none", any zero-width occurrence gives
"tokenizer_artifact", bidi occurrences without zero-width give "copy_paste",
anything else gives "formatting" — together with the four spec examples. -/
theorem C7_scan_likely_source (text : String) (b : Bool) :
    ((scan text b).context.likely_source =
      if text.data.countP isInvisible = 0 then Source.noneSource
      else if 0 < text.data.countP (isCat Category.zeroWidth) then
        Source.tokenizerArtifact
      else if 0 < text.data.countP (isCat Category.bidi) ∧
          text.data.countP (isCat Category.zeroWidth) = 0 then Source.copyPaste
      else Source.formattingSource) ∧
    (scan "Hello world" false).context.likely_source = Source.noneSource ∧
    (scan "a\u200Bb" false).context.likely_source = Source.tokenizerArtifact ∧
    (scan "a\u200Eb\u200Fc" false).context.likely_source = Source.copyPaste ∧
    (scan "a\u2003b" false).context.likely_source = Source.formattingSource := by
  refine ⟨?_, by decide, by decide, by decide, by decide⟩
  show (scanContext (scanTotal (scanFindings text.data))
    (scanCategories (scanFindings text.data))).likely_source = _
  unfold scanContext
  simp only [scanTotal_eq, catGet_scanCategories]
  split_ifs <;> rfl

/-- Claim C9: with `normalize_smart_chars = false`, cleaning is pure removal
and conserves length: `cleaned_length + chars_removed = original_length`
(all in code points). -/
theorem C9_clean_length_conserved (text : String) :
    (clean text false).cleaned_length + (clean text false).chars_removed =
      (clean text false).original_length := by
  show (cleanLoop false text.data []).1.length +
    sumCounts (cleanLoop false text.data []).2 = text.data.length
  have h := length_cleanLoop text.data []
  simpa [sumCounts] using h

/-- Claim C10: scanner and cleaner agree on the invisible-character count —
for any text and either smart-chars flag, removal-only cleaning removes
exactly `total_invisible_count` characters, both being the number of
invisible-table characters in the text. -/
theorem C10_clean_scan_agree (text : String) (b : Bool) :
    (clean text false).chars_removed = (scan text b).total_invisible_count := by
  show sumCounts (cleanLoop false text.data []).2 =
    scanTotal (scanFindings text.data)
  rw [sumCounts_cleanLoop, scanTotal_eq]
  have hq : (fun c => isInvisible c || (false && isSmart c)) = isInvisible := by
    funext c
    simp
  rw [hq]
  simp [sumCounts]


theorem clean_removal_entry (text : String) (n : Bool) :
    ∀ p ∈ (clean text n).removals,
      p.2.2 = text.data.count p.1 ∧
      (isInvisible p.1 || (n && isSmart p.1)) = true := by
  intro p hp
  obtain ⟨e, he, rfl⟩ := List.mem_map.mp hp
  have hqual : (isInvisible e.1 || (n && isSmart e.1)) = true := by
    rcases cleanLoop_entry n text.data [] e he with h | h
    · cases h
    · exact h
  have hnodup := cleanLoop_keys_nodup n text.data [] (by simp [akeys])
  have hlook : alookup (cleanLoop n text.data []).2 e.1 = some e.2 := by
    apply alookup_eq_some_of_mem hnodup
    simpa using he
  have hgd := alookup_cleanLoop n text.data e.1 []
  rw [hlook] at hgd
  simp only [alookup, Option.getD_some, Option.getD_none] at hgd
  have hpt : ∀ x, (x == e.1 && (isInvisible x || (n && isSmart x))) = (x == e.1) := by
    intro x
    by_cases hx : x = e.1
    · subst hx
      simp [hqual]
    · simp [hx]
  have hcount : text.data.countP
      (fun x => x == e.1 && (isInvisible x || (n && isSmart x))) =
      text.data.count e.1 := by
    rw [funext hpt]
    rfl
  refine ⟨?_, hqual⟩
  show e.2 = text.data.count e.1
  rw [← hcount]
  omega

/-- Claim C6: `chars_removed` counts source characters consumed (each removed
invisible character and each replaced smart character tallies exactly 1 under
its original code point, regardless of replacement length), and the
smart-quote example cleans to the expected ASCII text with
`chars_removed = 3`. -/
theorem C6_clean_chars_removed (text : String) (n : Bool) :
    (clean text n).chars_removed =
      text.data.countP (fun c => isInvisible c || (n && isSmart c)) ∧
    (∀ p ∈ (clean text n).removals, p.2.2 = text.data.count p.1) ∧
    (clean "\u201CHello,\u201D she said \u2014 loudly." true).cleaned_text =
      "\"Hello,\" she said -- loudly." ∧
    (clean "\u201CHello,\u201D she said \u2014 loudly." true).chars_removed = 3 := by
  refine ⟨?_, ?_, by decide, by decide⟩
  · show sumCounts (cleanLoop n text.data []).2 = _
    rw [sumCounts_cleanLoop]
    simp [sumCounts]
  · intro p hp
    exact (clean_removal_entry text n p hp).1

/-- Witness for C6: in the smart-quote example the left double quotation mark
is tallied once, under its own code point. -/
theorem C6_clean_chars_removed_witness :
    (('\u201C', "LEFT DOUBLE QUOTATION MARK", (1 : Nat)) ∈
      (clean "\u201CHello,\u201D she said \u2014 loudly." true).removals) ∧
    (('\u201C', "LEFT DOUBLE QUOTATION MARK", (1 : Nat)).2.2 =
      ("\u201CHello,\u201D she said \u2014 loudly.").data.count '\u201C') := by
  refine ⟨by decide, ?_⟩
  exact (C6_clean_chars_removed "\u201CHello,\u201D she said \u2014 loudly." true).2.1
    _ (by decide)

/-- Claim C3: `build_insight` applies its rules in priority order —
`chars_removed = 0` gives "inconclusive"; otherwise an empty score-delta list
gives "inconclusive"; otherwise any changed verdict gives
"byte_pattern_dependent"; otherwise a mean absolute delta above 0.05 gives
"byte_pattern_dependent"; otherwise "content_based". -/
theorem C3_build_insight_rules (cr : Nat) (cv : List VerdictChange)
    (sd : List ScoreDelta) :
    (cr = 0 → (build_insight cr cv sd).2 = "inconclusive") ∧
    (cr ≠ 0 → sd = [] → (build_insight cr cv sd).2 = "inconclusive") ∧
    (cr ≠ 0 → sd ≠ [] → cv ≠ [] →
      (build_insight cr cv sd).2 = "byte_pattern_dependent") ∧
    (cr ≠ 0 → sd ≠ [] → cv = [] → 0.05 < meanAbsDelta sd →
      (build_insight cr cv sd).2 = "byte_pattern_dependent") ∧
    (cr ≠ 0 → sd ≠ [] → cv = [] → meanAbsDelta sd ≤ 0.05 →
      (build_insight cr cv sd).2 = "content_based") := by
  simp only [build_insight_assessment]
  refine ⟨?_, ?_, ?_, ?_, ?_⟩
  · intro h
    simp [h]
  · intro h1 h2
    simp [h1, h2]
  · intro h1 h2 h3
    have hsd : sd.length ≠ 0 := by simpa [List.length_eq_zero] using h2
    have hcv : 0 < cv.length := List.length_pos.mpr h3
    simp [h1, hsd, hcv]
  · intro h1 h2 h3 h4
    have hsd : sd.length ≠ 0 := by simpa [List.length_eq_zero] using h2
    simp [h1, hsd, h3, h4]
  · intro h1 h2 h3 h4
    have hsd : sd.length ≠ 0 := by simpa [List.length_eq_zero] using h2
    simp [h1, hsd, h3, not_lt.mpr h4]

/-- Witness for C3: two characters removed, no verdict change, one detector
with delta 0.1 — the mean exceeds 0.05 and the assessment is
byte_pattern_dependent. -/
theorem C3_build_insight_rules_witness :
    (2 : Nat) ≠ 0 ∧ ([⟨"d1", (1 : ℚ) / 10⟩] : List ScoreDelta) ≠ [] ∧
    (0.05 : ℚ) < meanAbsDelta [⟨"d1", (1 : ℚ) / 10⟩] ∧
    (build_insight 2 [] [⟨"d1", (1 : ℚ) / 10⟩]).2 = "byte_pattern_dependent" := by
  have hmean : (0.05 : ℚ) < meanAbsDelta [⟨"d1", (1 : ℚ) / 10⟩] := by
    norm_num [meanAbsDelta, abs_of_nonneg]
  exact ⟨by decide, by simp, hmean,
    (C3_build_insight_rules 2 [] _).2.2.2.1 (by decide) (by simp) rfl hmean⟩


/-- Counterexample to C5 as stated: with successful verdicts
[likely_ai, likely_ai, likely_human], the largest group is 2 of 3, but the
summary's agreement ratio is the rounded 0.6667, not 2/3. -/
theorem C5_agreement_ratio_counterexample :
    (buildSummary summaryCexResults).agreement_ratio ≠ 2 / 3 ∧
    (buildSummary summaryCexResults).agreement_ratio = 6667 / 10000 := by
  have h1 : (buildSummary summaryCexResults).agreement_ratio =
      agreementSpec (summaryCexResults.map (fun r => r.verdict)) :=
    (buildSummary_spec _).2
  have h2 : summaryCexResults.map (fun r => r.verdict) =
      [Verdict.likely_ai, Verdict.likely_ai, Verdict.likely_human] := rfl
  have hc1 : ([Verdict.likely_ai, Verdict.likely_ai,
      Verdict.likely_human].count Verdict.likely_ai) = 2 := by decide
  have hc2 : ([Verdict.likely_ai, Verdict.likely_ai,
      Verdict.likely_human].count Verdict.likely_human) = 1 := by decide
  have hc3 : ([Verdict.likely_ai, Verdict.likely_ai,
      Verdict.likely_human].count Verdict.uncertain) = 0 := by decide
  have h3 : agreementSpec [Verdict.likely_ai, Verdict.likely_ai,
      Verdict.likely_human] = round4 (2 / 3) := by
    rw [agreementSpec]
    simp only [List.isEmpty_cons, hc1, hc2, hc3, List.length_cons,
      List.length_nil]
    norm_num
  have h4 : round4 ((2 : ℚ) / 3) = 6667 / 10000 := by
    norm_num [round4, roundHalfEven]
  rw [h1, h2, h3, h4]
  norm_num

/-- Claim C5 (amended): the consensus follows the all/one-of-each rule exactly
as specified, and the agreement ratio is the size of the largest
single-verdict group divided by the number of successful results, rounded
half-to-even to 4 decimal places (0 when there are no results). -/
theorem C5_consensus_and_ratio (results : List DetectionResult) :
    (buildSummary results).consensus =
      consensusSpec (results.map (fun r => r.verdict)) ∧
    (buildSummary results).agreement_ratio =
      agreementSpec (results.map (fun r => r.verdict)) :=
  buildSummary_spec results

/-- Counterexample to C8 as stated: the original score 0 moves to 0.05004
after cleaning, so the unrounded mean absolute delta is 0.05004 > 0.05 and the
claim predicts byte_pattern_dependent — but `compare_results` records the
delta rounded to 0.05, and `build_insight` therefore answers content_based. -/
theorem C8_rounding_counterexample :
    (compare_results cmpCexOriginal cmpCexCleaned).1 = [] ∧
    (0.05 : ℚ) < |(mkDR "d1" Verdict.likely_human (5004 / 100000)).ai_score -
      (mkDR "d1" Verdict.likely_human 0).ai_score| ∧
    (build_insight 1 (compare_results cmpCexOriginal cmpCexCleaned).1
      (compare_results cmpCexOriginal cmpCexCleaned).2).2 = "content_based" := by
  refine ⟨?_, ?_, ?_⟩
  · simp [compare_results, compareLoop, cleanedByName, cmpCexOriginal,
      cmpCexCleaned, mkDR]
  · norm_num [mkDR, abs_of_nonneg]
  · simp only [compare_results, compareLoop, cmpCexOriginal, cmpCexCleaned,
      cleanedByName, mkDR]
    norm_num [build_insight, meanAbsDelta, round4, roundHalfEven,
      abs_of_nonneg]

/-- Claim C8 (amended): the numeric fields the comparator reports are rounded
to 4 decimal places when they are recorded — in particular every recorded
score delta is `round4(cleaned_ai_score - original_ai_score)` — and the mean
absolute-delta threshold test of `build_insight` is therefore evaluated over
those recorded, already-rounded deltas. -/
theorem C8_rounding (original cleaned : List DetectionResult) (cr : Nat)
    (cv : List VerdictChange) (sd : List ScoreDelta) :
    ((compare_results original cleaned).2 = original.filterMap (fun o =>
      (cleanedByName cleaned o.detector).map (fun c =>
        { detector := o.detector, delta := round4 (c.ai_score - o.ai_score) }))) ∧
    (cr ≠ 0 → sd ≠ [] → cv = [] →
      ((build_insight cr cv sd).2 = "byte_pattern_dependent" ↔
        0.05 < meanAbsDelta sd)) := by
  constructor
  · exact compareLoop_deltas cleaned original
  · intro h0 hsd hcv
    rw [build_insight_assessment]
    have hlen : sd.length ≠ 0 := by simpa [List.length_eq_zero] using hsd
    simp only [h0, hlen, hcv, List.length_nil, lt_irrefl, if_false, ite_false]
    split_ifs with h
    · exact iff_of_true rfl h
    · refine iff_of_false ?_ h
      intro hh
      exact absurd hh (by decide)

/-- Witness for C8: the recorded delta for the counterexample pair is exactly
the rounded difference, and a rounded delta of 0.06 trips the threshold. -/
theorem C8_rounding_witness :
    (compare_results cmpCexOriginal cmpCexCleaned).2 =
      [{ detector := "d1", delta := round4 ((5004 / 100000 : ℚ) - 0) }] ∧
    (build_insight 1 [] [({ detector := "d1", delta := (6 : ℚ) / 100 } :
      ScoreDelta)]).2 = "byte_pattern_dependent" := by
  obtain ⟨h1, h2⟩ := C8_rounding cmpCexOriginal cmpCexCleaned 1 []
    [{ detector := "d1", delta := (6 : ℚ) / 100 }]
  constructor
  · rw [h1]
    simp [cmpCexOriginal, cmpCexCleaned, cleanedByName, mkDR]
  · rw [h2 (by decide) (by simp) rfl]
    norm_num [meanAbsDelta, abs_of_nonneg]

end Ghosted

